import Mathlib

/-!
Shallow embedding of `go/keys/manager.go` from the chrome-ssh-agent
repository: key identity scheme, stored-key records, encrypted-PEM
detection, blob base64 round-tripping, and the manager operations
(Add/Remove/Load/Unload/Configured) with their storage and agent
interactions made explicit as call traces.

External collaborators (Go standard library and x/crypto) are modelled:
`encoding/pem.Decode` and the ssh private-key parsers are arbitrary
function parameters (oracles), while `encoding/base64` StdEncoding and
the `strings` helpers are implemented concretely, since the repository's
behaviour depends on their actual input/output relation.
-/

namespace Keys

/-- `ID` is a unique identifier for a configured key (Go: `type ID string`). -/
abbrev ID := String

/-- `InvalidID` is a special ID that will not be assigned to any key. -/
def InvalidID : ID := ""

/-- keyPrefix is the prefix for keys stored in persistent storage; the full
storage key is of the form `key.<id>`. -/
def keyPrefix : String := "key."

/-- commentPrefix is the prefix for the comment included when a configured key
is loaded into the agent; the full comment is `chrome-ssh-agent:<id>`. -/
def commentPrefix : String := "chrome-ssh-agent:"

/-- Models Go's `strings.HasPrefix(s, pre)`. -/
def hasPrefixS (s pre : String) : Bool :=
  pre.data.isPrefixOf s.data

/-- Models Go's `strings.TrimPrefix(s, pre)`: drops `pre` from the front of
`s` when present, otherwise returns `s` unchanged. -/
def trimPrefixS (s pre : String) : String :=
  if pre.data.isPrefixOf s.data then String.mk (s.data.drop pre.data.length) else s

/-- Models Go's `strings.Contains(s, sub)` on the underlying character
lists: true when `sub` occurs contiguously inside `s`. -/
def containsSub : List Char → List Char → Bool
  | _, [] => true
  | [], _ :: _ => false
  | c :: rest, p :: ps => (p :: ps).isPrefixOf (c :: rest) || containsSub rest (p :: ps)

/-- A decoded PEM block as produced by Go's `encoding/pem.Decode` (outside
this repository). Only the headers are consulted by this code; `headers`
models the Go `map[string]string` as an association list. -/
structure PEMBlock where
  headers : List (String × String)

/-- Go map indexing `m[k]` on a `map[string]string`: the value when the key
is present, and the zero value `""` otherwise. -/
def headerGet (hs : List (String × String)) (k : String) : String :=
  match hs.find? (fun p => p.1 == k) with
  | some p => p.2
  | none => ""

/-- storedKey is the raw object stored in persistent storage for a configured
key (Go struct `storedKey`, fields `id`, `name`, `pemPrivateKey`). -/
structure storedKey where
  id : ID
  name : String
  pemPrivateKey : String
deriving DecidableEq

/-- Encrypted determines if the private key is encrypted: decode the PEM and
check whether the `Proc-Type` header contains `ENCRYPTED`; when the PEM is
unparseable (`pemDecode` returns `none`) the key is assumed unencrypted.
`pemDecode` is the oracle standing for Go's `encoding/pem.Decode`. -/
def storedKey.Encrypted (pemDecode : String → Option PEMBlock) (s : storedKey) : Bool :=
  match pemDecode s.pemPrivateKey with
  | none => false
  | some block => containsSub (headerGet block.headers "Proc-Type").data "ENCRYPTED".data

/- ## Base64 (Go `encoding/base64` StdEncoding) -/

/-- The standard base64 alphabet used by Go's `base64.StdEncoding`. -/
def b64Alphabet : List Char :=
  "ABCDEFGHIJKLMNOPQRSTUVWXYZabcdefghijklmnopqrstuvwxyz0123456789+/".data

/-- The alphabet character for a 6-bit value. -/
def sextetChar (n : Nat) : Char := b64Alphabet.getD n 'A'

/-- The 6-bit value of an alphabet character, `none` for characters outside
the alphabet (including the padding character). -/
def charSextet (c : Char) : Option Nat := b64Alphabet.findIdx? (fun d => d == c)

/-- Standard base64 encoding with padding, three input bytes per four output
characters, as in Go's `base64.StdEncoding.EncodeToString`. Bytes are
naturals taken mod 256. -/
def b64EncodeChunks : List Nat → List Char
  | [] => []
  | [b1] =>
    let n := b1 % 256 * 65536
    [sextetChar (n / 262144), sextetChar (n / 4096 % 64), '=', '=']
  | [b1, b2] =>
    let n := b1 % 256 * 65536 + b2 % 256 * 256
    [sextetChar (n / 262144), sextetChar (n / 4096 % 64), sextetChar (n / 64 % 64), '=']
  | b1 :: b2 :: b3 :: rest =>
    let n := b1 % 256 * 65536 + b2 % 256 * 256 + b3 % 256
    sextetChar (n / 262144) :: sextetChar (n / 4096 % 64) :: sextetChar (n / 64 % 64) ::
      sextetChar (n % 64) :: b64EncodeChunks rest

/-- Standard base64 decoding with padding, as in Go's
`base64.StdEncoding.DecodeString`: the input length must be a multiple of
four, padding may appear only in the final quantum, and any character
outside the alphabet is an error (`none`). -/
def b64DecodeChunks : List Char → Option (List Nat)
  | [] => some []
  | c1 :: c2 :: c3 :: c4 :: rest =>
    if c3 = '=' ∧ c4 = '=' ∧ rest = [] then
      match charSextet c1, charSextet c2 with
      | some s1, some s2 => some [s1 * 4 + s2 / 16]
      | _, _ => none
    else if c4 = '=' ∧ rest = [] then
      match charSextet c1, charSextet c2, charSextet c3 with
      | some s1, some s2, some s3 => some [s1 * 4 + s2 / 16, s2 % 16 * 16 + s3 / 4]
      | _, _, _ => none
    else
      match charSextet c1, charSextet c2, charSextet c3, charSextet c4,
          b64DecodeChunks rest with
      | some s1, some s2, some s3, some s4, some tail =>
        some ((s1 * 4 + s2 / 16) :: (s2 % 16 * 16 + s3 / 4) :: (s3 % 4 * 64 + s4) :: tail)
      | _, _, _, _, _ => none
  | _ => none

/-- `base64.StdEncoding.EncodeToString`. -/
def base64Encode (b : List Nat) : String := String.mk (b64EncodeChunks b)

/-- `base64.StdEncoding.DecodeString`. -/
def base64Decode (s : String) : Option (List Nat) := b64DecodeChunks s.data

/- ## Loaded keys -/

/-- LoadedKey is a key loaded into the agent (Go struct `LoadedKey`): the key
type, the base64-encoded public key material, and the comment. -/
structure LoadedKey where
  type : String
  blob : String
  comment : String
deriving DecidableEq

/-- SetBlob stores the public key material as a base64-encoded string. -/
def LoadedKey.SetBlob (k : LoadedKey) (b : List Nat) : LoadedKey :=
  { k with blob := base64Encode b }

/-- Blob returns the public key material for the loaded key; a base64 decode
failure is logged by the Go code and yields `nil` (here the empty list). -/
def LoadedKey.Blob (k : LoadedKey) : List Nat :=
  match base64Decode k.blob with
  | some b => b
  | none => []

/-- ID returns the unique ID corresponding to the key, recovered from the
comment; when the comment does not carry the manager's prefix the key is
foreign and `InvalidID` is returned. -/
def LoadedKey.ID (k : LoadedKey) : ID :=
  if hasPrefixS k.comment commentPrefix then trimPrefixS k.comment commentPrefix
  else InvalidID

/-- The comment attached when loading a configured key into the agent:
`fmt.Sprintf("%s%s", commentPrefix, id)`. This is the identity scheme's
encode direction. -/
def encodeComment (id : ID) : String := commentPrefix ++ id

/- ## Manager operations

The Go manager talks to two collaborators: the persistent store
(`chrome.Storage`) and the SSH agent.  Each operation below is the pure
content of the corresponding callback chain: the outcomes of the
collaborators' calls are passed in (the data a `Get` returned, the error an
injected `Set`/`Delete`/agent call reported), and the calls the manager
issues are returned as an explicit trace. -/

/-- A call the manager issues against the persistent store. Store values are
always `storedKey` records here, since those are the only values this
component reads or writes. -/
inductive StoreCall where
  | set (data : List (String × storedKey))
  | get
  | delete (keys : List String)
deriving DecidableEq

/-- A call the manager issues against the SSH agent, with the private-key
type `K` abstract (the Go code holds it as `interface{}`). `add` carries
the parsed private key and the comment; `remove` carries the public-key
descriptor (`agent.Key{Format, Blob}`). -/
inductive AgentCall (K : Type) where
  | add (priv : K) (comment : String)
  | remove (format : String) (blob : List Nat)

/-- readKeys: after a successful storage `Get` returning `data`, keep the
entries whose storage key carries `keyPrefix` and surface their records. -/
def readKeysFrom (data : List (String × storedKey)) : List storedKey :=
  (data.filter fun p => hasPrefixS p.1 keyPrefix).map Prod.snd

/-- readKey: the first stored record whose `id` matches, if any. -/
def readKeyFrom (data : List (String × storedKey)) (id : ID) : Option storedKey :=
  (readKeysFrom data).find? (fun k => k.id == id)

/-- writeKey: with `rng` the outcome of `rand.Int(rand.Reader,
big.NewInt(math.MaxInt64))` and `setErr` the error (if any) the storage
`Set` will report, the result and the store calls issued. The fresh id is
the decimal string of the random value. -/
def writeKey (rng : Except String Nat) (name pemPrivateKey : String)
    (setErr : Option String) : Except String Unit × List StoreCall :=
  match rng with
  | .error e => (.error ("failed to generate new ID: " ++ e), [])
  | .ok n =>
    let id : ID := toString n
    let storageKey := keyPrefix ++ id
    let data := [(storageKey, storedKey.mk id name pemPrivateKey)]
    match setErr with
    | some e => (.error e, [.set data])
    | none => (.ok (), [.set data])

/-- Add: reject an empty name before touching storage, otherwise write the
new record via `writeKey`. -/
def managerAdd (rng : Except String Nat) (name pemPrivateKey : String)
    (setErr : Option String) : Except String Unit × List StoreCall :=
  if name == "" then (.error "name must not be empty", [])
  else writeKey rng name pemPrivateKey setErr

/-- removeKey: the storage keys the manager asks `Delete` to remove for a
given id — one `key.<id>` entry per stored record whose `id` matches. -/
def removeKeyKeys (data : List (String × storedKey)) (id : ID) : List String :=
  ((readKeysFrom data).filter (fun k => k.id == id)).map (fun k => keyPrefix ++ k.id)

/-- The store's own semantics of `Delete(keys)`: entries under the listed
storage keys disappear. -/
def storeDelete (st : List (String × storedKey)) (ks : List String) :
    List (String × storedKey) :=
  st.filter (fun p => !(ks.contains p.1))

/-- The store contents after `Remove(id)` ran against a store holding `st`
(reading succeeded and the deletion was applied). -/
def managerRemoveStore (st : List (String × storedKey)) (id : ID) :
    List (String × storedKey) :=
  storeDelete st (removeKeyKeys st id)

/-- Remove's reported result: `getResult` is the outcome the storage `Get`
produced and `deleteErr` the error (if any) the storage `Delete` reported. -/
def managerRemove (getResult : Except String (List (String × storedKey)))
    (deleteErr : Option String) (_id : ID) : Except String Unit :=
  match getResult with
  | .error e => .error ("failed to enumerate keys: failed to read from storage: " ++ e)
  | .ok _ =>
    match deleteErr with
    | some e => .error ("failed to delete keys: " ++ e)
    | none => .ok ()

/-- ConfiguredKey is a key configured for use, as surfaced to callers. -/
structure ConfiguredKey where
  id : ID
  name : String
  encrypted : Bool
deriving DecidableEq

/-- Configured: the view assembled from a successful storage read — one entry
per stored record, with the derived `encrypted` flag. -/
def configuredFrom (pemDecode : String → Option PEMBlock)
    (data : List (String × storedKey)) : List ConfiguredKey :=
  (readKeysFrom data).map (fun k => ConfiguredKey.mk k.id k.name (k.Encrypted pemDecode))

/-- The collaborator outcomes `Load` depends on: the PEM decoder oracle, the
two ssh private-key parsers (`ssh.ParseRawPrivateKeyWithPassphrase` and
`ssh.ParseRawPrivateKey`, both outside this repository), and the error (if
any) the agent's `Add` will report. -/
structure LoadEnv (K : Type) where
  pemDecode : String → Option PEMBlock
  parseRawPrivateKeyWithPassphrase : String → String → Except String K
  parseRawPrivateKey : String → Except String K
  agentAddErr : Option String

/-- Load: look the record up by id in the data a storage `Get` produced;
fail when the read failed or no record matches; otherwise parse the PEM
with or without the passphrase according to the derived encrypted flag, and
on success hand the parsed key to the agent under the encoded comment. The
second component is the trace of agent calls issued. -/
def managerLoad {K : Type} (env : LoadEnv K)
    (getResult : Except String (List (String × storedKey)))
    (id : ID) (passphrase : String) : Except String Unit × List (AgentCall K) :=
  match getResult with
  | .error e =>
    (.error ("failed to read key: failed to read keys: failed to read from storage: " ++ e), [])
  | .ok data =>
    match readKeyFrom data id with
    | none => (.error ("failed to find key with ID " ++ id), [])
    | some key =>
      let parsed :=
        if key.Encrypted env.pemDecode then
          env.parseRawPrivateKeyWithPassphrase key.pemPrivateKey passphrase
        else
          env.parseRawPrivateKey key.pemPrivateKey
      match parsed with
      | .error e => (.error ("failed to parse private key: " ++ e), [])
      | .ok priv =>
        match env.agentAddErr with
        | some e => (.error ("failed to add key to agent: " ++ e),
                     [.add priv (encodeComment id)])
        | none => (.ok (), [.add priv (encodeComment id)])

/-- Unload: build the public-key descriptor from the loaded key's type and
decoded blob and hand it to the agent's `Remove`; `agentRemoveErr` is the
error (if any) that call reports. -/
def managerUnload (K : Type) (agentRemoveErr : Option String) (k : LoadedKey) :
    Except String Unit × List (AgentCall K) :=
  let pub : AgentCall K := .remove k.type k.Blob
  match agentRemoveErr with
  | some e => (.error ("failed to unload key: " ++ e), [pub])
  | none => (.ok (), [pub])

/- ## Concrete instances used to exercise the theorems on closed inputs -/

/-- A PEM block whose Proc-Type header carries the ENCRYPTED marker. -/
def encBlock : PEMBlock := ⟨[("Proc-Type", "4,ENCRYPTED,DEK-Info")]⟩

/-- A PEM-decode oracle decoding everything to `encBlock`. -/
def encPemDecode : String → Option PEMBlock := fun _ => some encBlock

/-- A concrete stored record. -/
def encStoredKey : storedKey := ⟨"11", "work", "PEMTEXT"⟩

/-- A collaborator environment in which the PEM decodes as encrypted, both
parsers succeed (with distinguishable results), and the agent accepts. -/
def encEnv : LoadEnv Nat := ⟨encPemDecode, fun _ _ => .ok 7, fun _ => .ok 8, none⟩

/-- Store contents holding `encStoredKey` under its proper storage key. -/
def encData : List (String × storedKey) := [("key.11", encStoredKey)]

/-- Store contents holding two records with the same id. -/
def dupStore : List (String × storedKey) :=
  [("key.7", storedKey.mk "7" "a" "PEM"), ("key.7", storedKey.mk "7" "b" "PEM")]

/- ## Helper lemmas -/

theorem charSextet_sextetChar : ∀ n, n < 64 → charSextet (sextetChar n) = some n := by
  decide

theorem sextetChar_ne_pad : ∀ n, n < 64 → ¬ sextetChar n = '=' := by
  decide

theorem b64_decode_encode : ∀ (b : List Nat), (∀ x ∈ b, x < 256) →
    b64DecodeChunks (b64EncodeChunks b) = some b
  | [], _ => rfl
  | [b1], h => by
    have h1 : b1 < 256 := h b1 (by simp)
    simp only [b64EncodeChunks, b64DecodeChunks]
    rw [if_pos (by simp)]
    rw [charSextet_sextetChar _ (by omega), charSextet_sextetChar _ (by omega)]
    have e1 : b1 % 256 * 65536 / 262144 * 4 + b1 % 256 * 65536 / 4096 % 64 / 16 = b1 := by
      omega
    simp [e1]
  | [b1, b2], h => by
    have h1 : b1 < 256 := h b1 (by simp)
    have h2 : b2 < 256 := h b2 (by simp)
    simp only [b64EncodeChunks, b64DecodeChunks]
    rw [if_neg (by intro hcon; exact sextetChar_ne_pad _ (by omega) hcon.1)]
    rw [if_pos (by simp)]
    rw [charSextet_sextetChar _ (by omega), charSextet_sextetChar _ (by omega),
      charSextet_sextetChar _ (by omega)]
    have e1 : (b1 % 256 * 65536 + b2 % 256 * 256) / 262144 * 4 +
        (b1 % 256 * 65536 + b2 % 256 * 256) / 4096 % 64 / 16 = b1 := by omega
    have e2 : (b1 % 256 * 65536 + b2 % 256 * 256) / 4096 % 64 % 16 * 16 +
        (b1 % 256 * 65536 + b2 % 256 * 256) / 64 % 64 / 4 = b2 := by omega
    simp [e1, e2]
  | b1 :: b2 :: b3 :: rest, h => by
    have h1 : b1 < 256 := h b1 (by simp)
    have h2 : b2 < 256 := h b2 (by simp)
    have h3 : b3 < 256 := h b3 (by simp)
    have ih := b64_decode_encode rest (fun x hx => h x (by simp [hx]))
    simp only [b64EncodeChunks, b64DecodeChunks]
    rw [if_neg (by intro hcon; exact sextetChar_ne_pad _ (by omega) hcon.1)]
    rw [if_neg (by intro hcon; exact sextetChar_ne_pad _ (by omega) hcon.1)]
    rw [charSextet_sextetChar _ (by omega), charSextet_sextetChar _ (by omega),
      charSextet_sextetChar _ (by omega), charSextet_sextetChar _ (by omega), ih]
    have e1 : (b1 % 256 * 65536 + b2 % 256 * 256 + b3 % 256) / 262144 * 4 +
        (b1 % 256 * 65536 + b2 % 256 * 256 + b3 % 256) / 4096 % 64 / 16 = b1 := by omega
    have e2 : (b1 % 256 * 65536 + b2 % 256 * 256 + b3 % 256) / 4096 % 64 % 16 * 16 +
        (b1 % 256 * 65536 + b2 % 256 * 256 + b3 % 256) / 64 % 64 / 4 = b2 := by omega
    have e3 : (b1 % 256 * 65536 + b2 % 256 * 256 + b3 % 256) / 64 % 64 % 4 * 64 +
        (b1 % 256 * 65536 + b2 % 256 * 256 + b3 % 256) % 64 = b3 := by omega
    simp [e1, e2, e3]

theorem containsSub_iff_infix : ∀ (s pat : List Char), containsSub s pat = true ↔ pat <:+: s
  | s, [] => by cases s <;> simp [containsSub, List.nil_infix]
  | [], p :: ps => by simp [containsSub, List.infix_nil]
  | c :: rest, p :: ps => by
    rw [containsSub, Bool.or_eq_true, List.isPrefixOf_iff_prefix,
      containsSub_iff_infix rest (p :: ps)]
    exact (List.infix_cons_iff).symm

theorem hasPrefixS_append (pre rest : String) : hasPrefixS (pre ++ rest) pre = true := by
  simp [hasPrefixS, String.data_append, List.isPrefixOf_iff_prefix, List.prefix_append]

theorem trimPrefixS_append (pre rest : String) : trimPrefixS (pre ++ rest) pre = rest := by
  simp only [trimPrefixS, String.data_append]
  rw [if_pos (List.isPrefixOf_iff_prefix.mpr (List.prefix_append _ _)), List.drop_left]

/- ## Claims -/

/-- C1: when Load finds a stored record (the storage read having succeeded),
the parse strategy follows the record's derived encrypted flag — the
passphrase-taking parser exactly when encrypted, the plain parser otherwise
— and on a successful parse the manager calls the agent's Add with the
parsed private key and the comment encode(id) = "chrome-ssh-agent:" + id. -/
theorem load_parses_per_flag_and_adds {K : Type} (env : LoadEnv K)
    (data : List (String × storedKey)) (id : ID) (passphrase : String)
    (key : storedKey) (hfound : readKeyFrom data id = some key) :
    (key.Encrypted env.pemDecode = true →
      ∀ priv : K,
        env.parseRawPrivateKeyWithPassphrase key.pemPrivateKey passphrase = .ok priv →
        (managerLoad env (.ok data) id passphrase).2 =
          [AgentCall.add priv (encodeComment id)]) ∧
    (key.Encrypted env.pemDecode = false →
      ∀ priv : K, env.parseRawPrivateKey key.pemPrivateKey = .ok priv →
        (managerLoad env (.ok data) id passphrase).2 =
          [AgentCall.add priv (encodeComment id)]) := by
  constructor
  · intro henc priv hparse
    cases haa : env.agentAddErr <;> simp [managerLoad, hfound, henc, hparse, haa]
  · intro henc priv hparse
    cases haa : env.agentAddErr <;> simp [managerLoad, hfound, henc, hparse, haa]

theorem load_parses_per_flag_and_adds_witness :
    (managerLoad encEnv (.ok encData) "11" "pw").2 =
      [AgentCall.add 7 (encodeComment "11")] :=
  (load_parses_per_flag_and_adds encEnv encData "11" "pw" encStoredKey (by decide)).1
    (by decide) 7 rfl

/-- C2: decoding the comment produced by encoding an id returns that id, and
decoding any comment that does not begin with the fixed prefix returns the
invalid-id sentinel (decoding is total, so no error outcome exists). -/
theorem decode_encode_roundtrip :
    (∀ (t b : String) (id : ID), (LoadedKey.mk t b (encodeComment id)).ID = id) ∧
    (∀ k : LoadedKey, hasPrefixS k.comment commentPrefix = false → k.ID = InvalidID) := by
  constructor
  · intro t b id
    simp [LoadedKey.ID, encodeComment, hasPrefixS_append, trimPrefixS_append]
  · intro k h
    simp [LoadedKey.ID, h]

theorem decode_encode_roundtrip_witness :
    (LoadedKey.mk "ssh-rsa" "" (encodeComment "42")).ID = "42" ∧
    (LoadedKey.mk "ssh-rsa" "" "user@host").ID = InvalidID :=
  ⟨decode_encode_roundtrip.1 "ssh-rsa" "" "42",
   decode_encode_roundtrip.2 (LoadedKey.mk "ssh-rsa" "" "user@host") (by decide)⟩

/-- C3: the derived encrypted flag is true exactly when the PEM decodes to a
block whose Proc-Type header value contains the ENCRYPTED marker as a
substring, and unparseable PEM yields false rather than an error. -/
theorem encrypted_flag_spec (pemDecode : String → Option PEMBlock) (s : storedKey) :
    (pemDecode s.pemPrivateKey = none → s.Encrypted pemDecode = false) ∧
    (∀ block, pemDecode s.pemPrivateKey = some block →
      (s.Encrypted pemDecode = true ↔
        "ENCRYPTED".data <:+: (headerGet block.headers "Proc-Type").data)) := by
  constructor
  · intro h; simp [storedKey.Encrypted, h]
  · intro block h
    simp only [storedKey.Encrypted, h]
    exact containsSub_iff_infix _ _

theorem encrypted_flag_spec_witness :
    "ENCRYPTED".data <:+: (headerGet encBlock.headers "Proc-Type").data :=
  ((encrypted_flag_spec encPemDecode encStoredKey).2 encBlock rfl).mp (by decide)

/-- C4: Add with an empty name fails validation and issues no store calls
at all, for every private key text, RNG outcome, and store behaviour. -/
theorem add_empty_name_rejected (pemPrivateKey : String) (rng : Except String Nat)
    (setErr : Option String) :
    managerAdd rng "" pemPrivateKey setErr = (.error "name must not be empty", []) := by
  simp [managerAdd]

/-- C5 counterexample: in a store whose single entry holds a record with id
"7" but sits under the storage key "key.999", Remove("7") deletes nothing
(it deletes the key "key.7" computed from the record's id), so Configured
afterwards still reports id "7" — the claim fails on that store state. -/
theorem remove_counterexample :
    (configuredFrom (fun _ => none)
        (managerRemoveStore [("key.999", storedKey.mk "7" "x" "PEM")] "7")).map
      ConfiguredKey.id = ["7"] := by
  decide

/-- C5 amended: on store states where every "key."-prefixed entry sits under
the storage key "key." + its record's id (the spec's storage-layout
invariant), Remove(id) followed by Configured never includes that id —
including when several records match — Remove of an absent id leaves the
store unchanged, and Remove reports success whenever the underlying store
calls succeed, whether or not the id existed. -/
theorem remove_idempotent_amended (st : List (String × storedKey)) (id : ID)
    (pemDecode : String → Option PEMBlock)
    (hwf : ∀ p ∈ st, hasPrefixS p.1 keyPrefix = true → p.1 = keyPrefix ++ p.2.id) :
    (∀ c ∈ configuredFrom pemDecode (managerRemoveStore st id), c.id ≠ id) ∧
    (readKeyFrom st id = none → managerRemoveStore st id = st) ∧
    managerRemove (.ok st) none id = .ok () := by
  refine ⟨?_, ?_, rfl⟩
  · intro c hc hcid
    simp only [configuredFrom, readKeysFrom, managerRemoveStore, storeDelete,
      List.mem_map, List.mem_filter] at hc
    obtain ⟨k, ⟨p, ⟨⟨hpst, hpdel⟩, hppre⟩, hpk⟩, hkc⟩ := hc
    have hkid : k.id = id := by rw [← hcid, ← hkc]
    have hkey : p.1 = keyPrefix ++ k.id := by
      have := hwf p hpst hppre
      rw [this, hpk]
    have hmem : p.1 ∈ removeKeyKeys st id := by
      simp only [removeKeyKeys, readKeysFrom, List.mem_map, List.mem_filter]
      exact ⟨k, ⟨⟨p, ⟨hpst, hppre⟩, hpk⟩, by simp [hkid]⟩, hkey.symm⟩
    have hcon : (removeKeyKeys st id).contains p.1 = true := by simpa using hmem
    rw [hcon] at hpdel
    simp at hpdel
  · intro habsent
    have hnone : ∀ k ∈ readKeysFrom st, ¬(k.id == id) = true :=
      List.find?_eq_none.mp habsent
    have hkeys : removeKeyKeys st id = [] := by
      simp only [removeKeyKeys]
      rw [List.filter_eq_nil_iff.mpr hnone]
      rfl
    simp only [managerRemoveStore, hkeys, storeDelete]
    exact List.filter_eq_self.mpr (fun a _ => by simp)

theorem remove_idempotent_amended_witness :
    managerRemoveStore dupStore "404" = dupStore ∧
    managerRemove (.ok dupStore) none "7" = .ok () :=
  ⟨(remove_idempotent_amended dupStore "404" (fun _ => none) (by decide)).2.1 (by decide),
   (remove_idempotent_amended dupStore "7" (fun _ => none) (by decide)).2.2⟩

/-- C6: Load with an id matching no stored record (the storage read having
succeeded) fails with the key-not-found error and issues no agent calls. -/
theorem load_not_found_no_agent_calls {K : Type} (env : LoadEnv K)
    (data : List (String × storedKey)) (id : ID) (passphrase : String)
    (habsent : readKeyFrom data id = none) :
    managerLoad env (.ok data) id passphrase =
      (.error ("failed to find key with ID " ++ id), []) := by
  simp [managerLoad, habsent]

theorem load_not_found_no_agent_calls_witness :
    managerLoad encEnv (.ok []) "404" "pw" =
      (.error ("failed to find key with ID " ++ "404"), []) :=
  load_not_found_no_agent_calls encEnv [] "404" "pw" rfl

/-- C7: for a successful RNG draw — which rand.Int guarantees lies below
MaxInt64 — Add with a non-empty name uses the decimal serialization of the
drawn value as the id and issues exactly one Set call, carrying exactly the
one record {id, name, pemPrivateKey} under storage key "key." + id,
whatever the Set outcome; when the Set succeeds, Add reports success. -/
theorem add_single_set_decimal_id (n : Nat) (name pemPrivateKey : String)
    (setErr : Option String) (_hn : n < 9223372036854775807) (hname : name ≠ "") :
    (managerAdd (.ok n) name pemPrivateKey setErr).2 =
      [StoreCall.set
        [(keyPrefix ++ toString n, storedKey.mk (toString n) name pemPrivateKey)]] ∧
    (managerAdd (.ok n) name pemPrivateKey none).1 = .ok () := by
  have hb : (name == "") = false := beq_eq_false_iff_ne.mpr hname
  refine ⟨?_, ?_⟩
  · cases setErr <;> simp [managerAdd, writeKey, hb]
  · simp [managerAdd, writeKey, hb]

theorem add_single_set_decimal_id_witness :
    (managerAdd (.ok 5) "work" "PEM" none).2 =
      [StoreCall.set [(keyPrefix ++ toString 5, storedKey.mk (toString 5) "work" "PEM")]] ∧
    (managerAdd (.ok 5) "work" "PEM" none).1 = .ok () :=
  add_single_set_decimal_id 5 "work" "PEM" none (by decide) (by decide)

/-- C8: the loaded-key blob encoding is reversible — Blob after SetBlob(b)
returns exactly b for any byte sequence — and a stored blob string that
fails to decode reads back as the empty byte sequence instead of an
error. -/
theorem blob_roundtrip_and_soft_failure :
    (∀ (k : LoadedKey) (b : List Nat), (∀ x ∈ b, x < 256) → (k.SetBlob b).Blob = b) ∧
    (∀ k : LoadedKey, base64Decode k.blob = none → k.Blob = []) := by
  constructor
  · intro k b hb
    simp [LoadedKey.SetBlob, LoadedKey.Blob, base64Encode, base64Decode,
      b64_decode_encode b hb]
  · intro k h
    simp [LoadedKey.Blob, h]

theorem blob_roundtrip_and_soft_failure_witness :
    ((LoadedKey.mk "ssh-rsa" "" "c").SetBlob [0, 1, 255, 16]).Blob = [0, 1, 255, 16] ∧
    (LoadedKey.mk "ssh-rsa" "!" "c").Blob = [] :=
  ⟨blob_roundtrip_and_soft_failure.1 (LoadedKey.mk "ssh-rsa" "" "c") [0, 1, 255, 16]
      (by decide),
   blob_roundtrip_and_soft_failure.2 (LoadedKey.mk "ssh-rsa" "!" "c") (by decide)⟩

/-- C9: Unload calls the agent's Remove with a descriptor built only from
the loaded key's type and decoded blob; two loaded keys agreeing on type
and blob behave identically under Unload — the comment is never used. -/
theorem unload_ignores_comment (K : Type) (agentRemoveErr : Option String)
    (k1 k2 : LoadedKey) (ht : k1.type = k2.type) (hb : k1.blob = k2.blob) :
    (managerUnload K agentRemoveErr k1).2 = [AgentCall.remove k1.type k1.Blob] ∧
    managerUnload K agentRemoveErr k1 = managerUnload K agentRemoveErr k2 := by
  constructor
  · cases agentRemoveErr <;> simp [managerUnload]
  · cases agentRemoveErr <;> simp [managerUnload, LoadedKey.Blob, ht, hb]

theorem unload_ignores_comment_witness :
    managerUnload Nat none (LoadedKey.mk "ssh-rsa" "QQ==" "chrome-ssh-agent:1") =
      managerUnload Nat none (LoadedKey.mk "ssh-rsa" "QQ==" "other comment") :=
  (unload_ignores_comment Nat none (LoadedKey.mk "ssh-rsa" "QQ==" "chrome-ssh-agent:1")
    (LoadedKey.mk "ssh-rsa" "QQ==" "other comment") rfl rfl).2

/-- C10: a loaded key whose comment is exactly the manager prefix with
nothing after it resolves to InvalidID — the empty string — which is the
very resolution every foreign (unprefixed) comment gets, so the two are
indistinguishable through the identity-resolution interface. -/
theorem bare_prefix_comment_is_invalid (t b t2 b2 c2 : String)
    (hforeign : hasPrefixS c2 commentPrefix = false) :
    (LoadedKey.mk t b commentPrefix).ID = InvalidID ∧
    InvalidID = ("" : String) ∧
    (LoadedKey.mk t b commentPrefix).ID = (LoadedKey.mk t2 b2 c2).ID := by
  have hself : (LoadedKey.mk t b commentPrefix).ID = InvalidID := by
    simp only [LoadedKey.ID]
    decide
  refine ⟨hself, rfl, ?_⟩
  rw [hself]
  simp [LoadedKey.ID, hforeign]

theorem bare_prefix_comment_is_invalid_witness :
    (LoadedKey.mk "ssh-rsa" "" commentPrefix).ID = InvalidID ∧
    InvalidID = ("" : String) ∧
    (LoadedKey.mk "ssh-rsa" "" commentPrefix).ID =
      (LoadedKey.mk "ssh-ed25519" "" "user@host").ID :=
  bare_prefix_comment_is_invalid "ssh-rsa" "" "ssh-ed25519" "" "user@host" (by decide)

end Keys
